import Mathlib

/-!
Verification development for the SHL assessment recommendation engine
(`query_functions.py`).  The catalog engine is embedded shallowly: pandas
rows become a `Record` structure, the numpy score vectors become `List ℚ`
(every IEEE float is an exact rational), `np.argsort` is modelled as a
stable ascending argsort (ties kept in index order, i.e. a lexicographic
sort on the pair (value, index)), and Python exceptions become
`Except String`.  The sentence-transformer embedding model and the Gemini
client are external collaborators: they enter the embedding as function
parameters, while every line of arithmetic and list manipulation of
`query_functions.py` itself is translated directly.
-/

namespace SHL

/-- One row of the SHL catalog (`self.catalog`), after `fillna('')`:
columns `Assessment Name`, `URL`, `Test Type`, `Skills`, `Description`,
`Duration`, `Remote Testing Support`, `Adaptive/IRT`.  `Duration` is kept
as the integer that `astype(int)` produces. -/
structure Record where
  assessmentName : String
  url : String
  testType : String
  skills : String
  description : String
  duration : ℤ
  remoteTestingSupport : String
  adaptiveIRT : String
deriving DecidableEq, Repr

instance : Inhabited Record :=
  ⟨{ assessmentName := "", url := "", testType := "", skills := "",
     description := "", duration := 0, remoteTestingSupport := "",
     adaptiveIRT := "" }⟩

/-- Model of `_get_combined_text`: the f-string
`f"{row['Assessment Name']} {row['Test Type']} {row['Skills']} {row.get('Description', '')}"`. -/
def get_combined_text (row : Record) : String :=
  row.assessmentName ++ " " ++ row.testType ++ " " ++ row.skills ++ " " ++
    row.description

/-- Python `str.lower()`, modelled characterwise. -/
def toLowerStr (s : String) : String := ⟨s.data.map Char.toLower⟩

/-- Helper for `pySplitWs`: accumulates the current word (reversed) while
scanning the character list. -/
def wsSplitAux : List Char → List Char → List String
  | acc, [] => if acc.isEmpty then [] else [String.mk acc.reverse]
  | acc, c :: cs =>
    if c.isWhitespace then
      if acc.isEmpty then wsSplitAux [] cs
      else String.mk acc.reverse :: wsSplitAux [] cs
    else wsSplitAux (c :: acc) cs

/-- Python `str.split()` with no argument: split on runs of whitespace,
dropping empty pieces. -/
def pySplitWs (s : String) : List String := wsSplitAux [] s.data

/-- Python's substring test `needle in haystack`. -/
def substrB (needle haystack : String) : Bool :=
  haystack.data.tails.any fun t => needle.data.isPrefixOf t

/-- Python `round(x)` (round half to even), on an exact rational. -/
def pyRound (x : ℚ) : ℤ :=
  let f := ⌊x⌋
  let r := x - (f : ℚ)
  if r < 1 / 2 then f
  else if 1 / 2 < r then f + 1
  else if f % 2 = 0 then f else f + 1

/-- Python `round(x, 1)`: round to one decimal digit. -/
def rnd1 (x : ℚ) : ℚ := (pyRound (10 * x) : ℚ) / 10

/-- Comparison used to model `np.argsort`: indices ordered by value, ties
broken by index.  A stable ascending argsort is exactly an (unstable) sort
by this lexicographic relation, because indices are distinct. -/
def idxLe {α : Type} [LinearOrder α] (d : α) (xs : List α) (i j : ℕ) : Prop :=
  xs.getD i d < xs.getD j d ∨ (xs.getD i d = xs.getD j d ∧ i ≤ j)

instance {α : Type} [LinearOrder α] (d : α) (xs : List α) :
    DecidableRel (idxLe d xs) := fun i j => by
  unfold idxLe; infer_instance

instance {α : Type} [LinearOrder α] (d : α) (xs : List α) :
    IsTotal ℕ (idxLe d xs) :=
  ⟨fun i j => by
    unfold idxLe
    rcases lt_trichotomy (xs.getD i d) (xs.getD j d) with h | h | h
    · exact Or.inl (Or.inl h)
    · rcases Nat.le_total i j with hij | hij
      · exact Or.inl (Or.inr ⟨h, hij⟩)
      · exact Or.inr (Or.inr ⟨h.symm, hij⟩)
    · exact Or.inr (Or.inl h)⟩

instance {α : Type} [LinearOrder α] (d : α) (xs : List α) :
    IsTrans ℕ (idxLe d xs) :=
  ⟨fun i j k hij hjk => by
    unfold idxLe at *
    rcases hij with h₁ | ⟨e₁, l₁⟩
    · rcases hjk with h₂ | ⟨e₂, _⟩
      · exact Or.inl (h₁.trans h₂)
      · exact Or.inl (e₂ ▸ h₁)
    · rcases hjk with h₂ | ⟨e₂, l₂⟩
      · exact Or.inl (e₁ ▸ h₂)
      · exact Or.inr ⟨e₁.trans e₂, l₁.trans l₂⟩⟩

/-- Model of `np.argsort(xs)` as a stable ascending argsort. -/
def argsortAsc {α : Type} [LinearOrder α] (d : α) (xs : List α) : List ℕ :=
  (List.range xs.length).insertionSort (idxLe d xs)

/-- Model of `np.argsort(xs)[::-1]`. -/
def argsortDesc {α : Type} [LinearOrder α] (d : α) (xs : List α) : List ℕ :=
  (argsortAsc d xs).reverse

/-- Core of `semantic_search` (lines 135-146), once the external model has
produced the cosine-similarity vector `sims` (one entry per catalog row):
`top_indices = np.argsort(similarities)[::-1][:top_k]`, then the selected
rows paired with `round(similarities[i] * 100, 1)`. -/
def semanticSearchSims (catalog : List Record) (sims : List ℚ) (top_k : ℕ) :
    List (Record × ℚ) :=
  ((argsortDesc 0 sims).take top_k).map fun i =>
    (catalog.getD i default, rnd1 (sims.getD i 0 * 100))

/-- Raw keyword score of one row:
`sum(1 for term in query_terms if term in combined)`. -/
def kwScore (query_terms : List String) (row : Record) : ℕ :=
  query_terms.countP fun t => substrB t (toLowerStr (get_combined_text row))

/-- Python `max(l)`: `None` models the `ValueError` on an empty sequence. -/
def pyMax : List ℕ → Option ℕ
  | [] => none
  | x :: xs => some (xs.foldl max x)

/-- Message of the `ValueError` that `max(scores)` raises on line 159 when
the catalog is empty. -/
def kwEmptyErr : String := "ValueError: max() arg is an empty sequence"

/-- Model of `_keyword_search` (lines 148-162): whitespace-tokenise the lowered
query, score every row, rank with `np.argsort(scores)[::-1][:top_k]`, and
normalise by `max(scores)` (or by 1 when that maximum is 0).  On an empty
catalog, `max(scores)` raises. -/
def keyword_search (catalog : List Record) (query : String) (top_k : ℕ) :
    Except String (List (Record × ℚ)) :=
  let query_terms := pySplitWs (toLowerStr query)
  let scores := catalog.map (kwScore query_terms)
  let top_indices := (argsortDesc 0 scores).take top_k
  match pyMax scores with
  | none => .error kwEmptyErr
  | some m =>
    let max_score : ℕ := if 0 < m then m else 1
    .ok (top_indices.map fun i =>
      (catalog.getD i default,
        rnd1 ((scores.getD i 0 : ℚ) / (max_score : ℚ) * 100)))

/-- The raw keyword score vector of `_keyword_search` (lines 149-155),
one entry per catalog row. -/
def kwScores (catalog : List Record) (query : String) : List ℕ :=
  catalog.map (kwScore (pySplitWs (toLowerStr query)))

/-- Search capability of the engine: `semantic` carries the external
embedding model, abstracted as the function taking the query text to the
cosine-similarity vector computed on lines 137-139; `fallback` is the state
`self.model is None`. -/
inductive Mode where
  | semantic (sims : String → List ℚ)
  | fallback

/-- Model of `semantic_search` (lines 131-146): dispatches to `_keyword_search` when
no model is loaded. -/
def semantic_search (catalog : List Record) (mode : Mode) (query : String)
    (top_k : ℕ) : Except String (List (Record × ℚ)) :=
  match mode with
  | .fallback => keyword_search catalog query top_k
  | .semantic sims => .ok (semanticSearchSims catalog (sims query) top_k)

/-- Dot product of two float vectors, `np.dot`. -/
def dotp (u v : List ℝ) : ℝ := (List.zipWith (· * ·) u v).sum

/-- Euclidean norm, `np.linalg.norm`. -/
noncomputable def norm2 (v : List ℝ) : ℝ := Real.sqrt (dotp v v)

/-- Cosine similarity as computed on lines 137-139:
`np.dot(e, q) / (np.linalg.norm(e) * np.linalg.norm(q))`. -/
noncomputable def cosineSim (u v : List ℝ) : ℝ :=
  dotp u v / (norm2 u * norm2 v)

/-- Model of `filter_by_duration` (lines 164-165):
`df[df['Duration'].astype(int) <= max_duration]`. -/
def filter_by_duration (df : List (Record × ℚ)) (max_duration : ℤ) :
    List (Record × ℚ) :=
  df.filter fun p => decide (p.1.duration ≤ max_duration)

/-- Model of `filter_by_test_type` (lines 167-170). -/
def filter_by_test_type (df : List (Record × ℚ)) (test_types : List String) :
    List (Record × ℚ) :=
  if test_types.isEmpty then df
  else df.filter fun p => test_types.contains p.1.testType

/-- Model of `filter_by_remote` (lines 172-175). -/
def filter_by_remote (df : List (Record × ℚ)) (remote_only : Bool) :
    List (Record × ℚ) :=
  if remote_only then df.filter fun p => p.1.remoteTestingSupport == "Yes"
  else df

/-- Truthiness of a Python optional string: `None` and `""` are falsy. -/
def pyFalsyStr : Option String → Bool
  | none => true
  | some s => s == ""

/-- Result shape of `extract_job_requirements`. -/
structure JobRequirements where
  skills : List String
  experience_level : String
  test_types : List String
  duration_preference : String
  key_responsibilities : List String
deriving DecidableEq, Repr

/-- Regex word character, `\w`. -/
def isWordChar (c : Char) : Bool := c.isAlphanum || c = '_'

/-- The trailing `\b` of the skill patterns: the next character (if any)
must not be a word character. -/
def boundaryAfter : List Char → Bool
  | [] => true
  | c :: _ => !isWordChar c

/-- First alternative of the pattern group that matches at the current
position and satisfies the trailing `\b` (Python's regex engine tries
alternatives left to right and backtracks into the group when the trailing
boundary fails). -/
def firstAltMatch (alts : List String) (s : List Char) :
    Option (String × List Char) :=
  match alts with
  | [] => none
  | k :: rest =>
    if !k.data.isEmpty && k.data.isPrefixOf s &&
        boundaryAfter (s.drop k.data.length) then
      some (k, s.drop k.data.length)
    else firstAltMatch rest s

/-- Model of `re.findall(r'\b(alt1|alt2|...)\b', text)`: non-overlapping scan,
collecting the matched group.  `prev` is the character before the current
position (for the leading `\b`); `fuel` bounds the recursion and is ample
because every step consumes at least one character. -/
def findallAux (alts : List String) : ℕ → Option Char → List Char → List String
  | 0, _, _ => []
  | _ + 1, _, [] => []
  | fuel + 1, prev, c :: cs =>
    let boundary : Bool := match prev with
      | none => true
      | some p => !isWordChar p
    if boundary then
      match firstAltMatch alts (c :: cs) with
      | some (k, rest) => k :: findallAux alts fuel k.data.getLast? rest
      | none => findallAux alts fuel (some c) cs
    else findallAux alts fuel (some c) cs

/-- Model of `re.findall` of one skill pattern over the whole text. -/
def reFindall (alts : List String) (text : String) : List String :=
  findallAux alts (text.data.length + 1) none text.data

/-- The fixed `skill_patterns` of `extract_job_requirements` (lines
112-116), with the regex alternation order preserved; `node\.?js` expands
to trying `node.js` before `nodejs`. -/
def skill_patterns : List (List String) :=
  [["python", "java", "javascript", "sql", "react", "node.js", "nodejs",
    "angular", "typescript"],
   ["problem solving", "communication", "teamwork", "leadership",
    "analytical"],
   ["data analysis", "machine learning", "cloud", "aws", "azure", "gcp"]]

/-- Heuristic path of `extract_job_requirements` (lines 111-129): collect
the pattern matches over the lowered text into `skills` (deduplicated, as
`list(set(skills))`), with the fixed defaults for the other fields. -/
def heuristic_requirements (text : String) : JobRequirements :=
  let text_lower := toLowerStr text
  let skills := (skill_patterns.map fun p => reFindall p text_lower).flatten
  { skills := skills.dedup
    experience_level := "mid"
    test_types := ["Coding", "Cognitive"]
    duration_preference := "medium"
    key_responsibilities := [] }

/-- Model of `extract_job_requirements` (lines 81-129).  The Gemini client is an
external collaborator, abstracted as an optional function; `none` for the
whole client models a disabled client, `none` for one call models an
exception or unparsable response, both of which fall through to the
heuristic. -/
def extract_job_requirements
    (gemini : Option (String → Option JobRequirements)) (text : String) :
    JobRequirements :=
  match gemini with
  | some client =>
    match client text with
    | some parsed => parsed
    | none => heuristic_requirements text
  | none => heuristic_requirements text

/-- Helper for `collapseWsChars`: the flag records whether the previous
character was whitespace (in which case the current run already emitted
its single space). -/
def collapseWsAux : Bool → List Char → List Char
  | _, [] => []
  | prevWs, c :: cs =>
    if c.isWhitespace then
      if prevWs then collapseWsAux true cs else ' ' :: collapseWsAux true cs
    else c :: collapseWsAux false cs

/-- Model of `re.sub(r'\s+', ' ', text)`: collapse every whitespace run to one
space. -/
def collapseWsChars (l : List Char) : List Char := collapseWsAux false l

/-- Model of `extract_text_from_url` (lines 63-79).  The `requests` fetch and the
BeautifulSoup parse/`get_text` are external collaborators, abstracted as
`fetchParse`; an `Except.error` models any exception raised inside the
`try`.  The code then collapses whitespace and truncates to 5000
characters, and the `except` arm returns the error string. -/
def extract_text_from_url (fetchParse : String → Except String String)
    (url : String) : String :=
  match fetchParse url with
  | .ok text => ⟨(collapseWsChars text.data).take 5000⟩
  | .error e => "Error extracting text: " ++ e

/-- Python `str.startswith`, modelled on the character list. -/
def pyStartswith (s pre : String) : Bool := pre.data.isPrefixOf s.data

/-- Lines 186-196 of `get_recommendations`: determine the effective search
query, job requirements and test types from `query`/`url`. -/
def resolve_search (gemini : Option (String → Option JobRequirements))
    (fetchParse : String → Except String String)
    (query url : Option String) (test_types : List String) :
    Option String × Option JobRequirements × List String :=
  match url with
  | some u =>
    if u == "" then (query, none, test_types)
    else
      let extracted := extract_text_from_url fetchParse u
      if pyStartswith extracted "Error" then (query, none, test_types)
      else
        let jr := extract_job_requirements gemini extracted
        if jr.skills.isEmpty then (query, some jr, test_types)
        else
          (some (String.intercalate " " jr.skills), some jr,
            if !jr.test_types.isEmpty && test_types.isEmpty then jr.test_types
            else test_types)
  | none => (query, none, test_types)

/-- Response shape of `get_recommendations` (lines 213-218). -/
structure RecOutput where
  recommendations : List (Record × ℚ)
  job_requirements : Option JobRequirements
  search_query : Option String
  total_found : ℕ
deriving DecidableEq, Repr

/-- Filter stage of `get_recommendations` (lines 204-211), with Python
truthiness on the guards: `if max_duration:` skips the duration filter for
`None` and for `0`, `if test_types:` skips the category filter for an
empty list, then the result is truncated to `top_k`. -/
def apply_filters (results₀ : List (Record × ℚ)) (max_duration : Option ℤ)
    (test_types : List String) (remote_only : Bool) (top_k : ℕ) :
    List (Record × ℚ) :=
  let results₁ := match max_duration with
    | some d => if d ≠ 0 then filter_by_duration results₀ d else results₀
    | none => results₀
  let results₂ :=
    if test_types.isEmpty then results₁
    else filter_by_test_type results₁ test_types
  let results₃ :=
    if remote_only then filter_by_remote results₂ remote_only else results₂
  results₃.take top_k

/-- Model of `get_recommendations` (lines 177-218): resolve the search query, rank
(or take the catalog head with score 100.0 when there is no usable query),
apply the filter stage, and report `total_found` as the final length. -/
def get_recommendations (catalog : List Record) (mode : Mode)
    (gemini : Option (String → Option JobRequirements))
    (fetchParse : String → Except String String)
    (query url : Option String) (max_duration : Option ℤ)
    (test_types : List String) (remote_only : Bool) (top_k : ℕ) :
    Except String RecOutput :=
  let rs := resolve_search gemini fetchParse query url test_types
  let search_query := rs.1
  let job_requirements := rs.2.1
  let test_types' := rs.2.2
  let base : Except String (List (Record × ℚ)) :=
    if pyFalsyStr search_query then
      .ok ((catalog.take top_k).map fun r => (r, (100 : ℚ)))
    else
      semantic_search catalog mode (search_query.getD "") (min (top_k * 2) 50)
  match base with
  | .error e => .error e
  | .ok results₀ =>
    let final := apply_filters results₀ max_duration test_types' remote_only top_k
    .ok { recommendations := final, job_requirements := job_requirements,
          search_query := search_query, total_found := final.length }

/-- Modelled from the spec (refinement side of the fallback strategy):
"tokenize the query (case-insensitive whitespace split)". -/
def specTokenize (q : String) : List String := pySplitWs (toLowerStr q)

/-- Modelled from the spec (refinement side): "for each record count how
many query tokens appear as substrings of its combined text fields". -/
def specRawScore (q : String) (r : Record) : ℕ :=
  (specTokenize q).countP fun t => substrB t (toLowerStr (get_combined_text r))

/-- Modelled from the spec (refinement side): "the maximum raw count
across the catalog (or 1 if the maximum is 0)". -/
def specDenom (q : String) (catalog : List Record) : ℕ :=
  let m := (pyMax (catalog.map (specRawScore q))).getD 0
  if m = 0 then 1 else m

/-- Modelled from the spec (refinement side): "normalize scores by
dividing by the maximum raw count across the catalog (or 1 if the maximum
is 0) and scale to `[0, 100]`". -/
def specFallbackScore (q : String) (catalog : List Record) (r : Record) : ℚ :=
  ((specRawScore q r : ℚ) / (specDenom q catalog : ℚ)) * 100

/-- Sample catalog row used in witnesses and counterexamples. -/
def recA : Record :=
  { assessmentName := "Java Test", url := "https://example.com/java",
    testType := "Coding", skills := "java", description := "Java coding",
    duration := 40, remoteTestingSupport := "Yes", adaptiveIRT := "No" }

/-- Second sample catalog row, distinct from `recA`. -/
def recB : Record :=
  { assessmentName := "SQL Test", url := "https://example.com/sql",
    testType := "Coding", skills := "sql", description := "SQL coding",
    duration := 25, remoteTestingSupport := "No", adaptiveIRT := "No" }

/-- Sample catalog row with duration 30, used for the duration-filter
boundary. -/
def recD : Record :=
  { assessmentName := "Cognitive Battery", url := "https://example.com/cog",
    testType := "Cognitive", skills := "reasoning",
    description := "General ability", duration := 30,
    remoteTestingSupport := "Yes", adaptiveIRT := "Yes" }

/-! ### Properties of the argsort model -/

lemma argsortAsc_perm {α : Type} [LinearOrder α] (d : α) (xs : List α) :
    (argsortAsc d xs).Perm (List.range xs.length) :=
  List.perm_insertionSort _ _

lemma length_argsortAsc {α : Type} [LinearOrder α] (d : α) (xs : List α) :
    (argsortAsc d xs).length = xs.length := by
  rw [(argsortAsc_perm d xs).length_eq, List.length_range]

lemma length_argsortDesc {α : Type} [LinearOrder α] (d : α) (xs : List α) :
    (argsortDesc d xs).length = xs.length := by
  rw [argsortDesc, List.length_reverse, length_argsortAsc]

lemma lt_of_mem_argsortDesc {α : Type} [LinearOrder α] {d : α} {xs : List α}
    {i : ℕ} (h : i ∈ argsortDesc d xs) : i < xs.length := by
  rw [argsortDesc, List.mem_reverse] at h
  have := (argsortAsc_perm d xs).mem_iff.mp h
  simpa using this

lemma nodup_argsortDesc {α : Type} [LinearOrder α] (d : α) (xs : List α) :
    (argsortDesc d xs).Nodup := by
  rw [argsortDesc, List.nodup_reverse]
  exact (argsortAsc_perm d xs).symm.nodup (List.nodup_range _)

lemma sorted_argsortAsc {α : Type} [LinearOrder α] (d : α) (xs : List α) :
    List.Sorted (idxLe d xs) (argsortAsc d xs) :=
  List.sorted_insertionSort _ _

lemma pairwise_argsortDesc {α : Type} [LinearOrder α] (d : α) (xs : List α) :
    (argsortDesc d xs).Pairwise (fun i j => idxLe d xs j i) := by
  rw [argsortDesc, List.pairwise_reverse]
  exact sorted_argsortAsc d xs

/-- The ranking order produced by `np.argsort(xs)[::-1]` under the stable
argsort model: strictly descending values, with ties in strictly
descending index order (the reversal turns the stable tie order around). -/
lemma pairwise_argsortDesc_strict {α : Type} [LinearOrder α] (d : α)
    (xs : List α) :
    (argsortDesc d xs).Pairwise
      (fun i j => xs.getD j d < xs.getD i d ∨
        (xs.getD i d = xs.getD j d ∧ j < i)) := by
  have h := (pairwise_argsortDesc d xs).and (nodup_argsortDesc d xs)
  exact h.imp (by
    rintro i j ⟨hle | ⟨heq, hij⟩, hne⟩
    · exact Or.inl hle
    · exact Or.inr ⟨heq.symm, lt_of_le_of_ne hij (Ne.symm hne)⟩)

lemma pairwise_argsortDesc_ge {α : Type} [LinearOrder α] (d : α)
    (xs : List α) :
    (argsortDesc d xs).Pairwise (fun i j => xs.getD j d ≤ xs.getD i d) :=
  (pairwise_argsortDesc d xs).imp (by
    rintro i j (hlt | ⟨heq, _⟩)
    · exact hlt.le
    · exact heq.le)

/-! ### Properties of Python rounding -/

lemma le_pyRound (x : ℚ) : ⌊x⌋ ≤ pyRound x := by
  simp only [pyRound]; split_ifs <;> omega

lemma pyRound_le (x : ℚ) : pyRound x ≤ ⌊x⌋ + 1 := by
  simp only [pyRound]; split_ifs <;> omega

lemma pyRound_mono {x y : ℚ} (h : x ≤ y) : pyRound x ≤ pyRound y := by
  rcases lt_or_eq_of_le (Int.floor_le_floor h) with hf | hf
  · calc pyRound x ≤ ⌊x⌋ + 1 := pyRound_le x
      _ ≤ ⌊y⌋ := by omega
      _ ≤ pyRound y := le_pyRound y
  · simp only [pyRound]
    rw [← hf]
    have hr : x - (⌊x⌋ : ℚ) ≤ y - (⌊x⌋ : ℚ) := by linarith
    split_ifs <;> first | omega | linarith

lemma pyRound_intCast (n : ℤ) : pyRound (n : ℚ) = n := by
  simp only [pyRound, Int.floor_intCast]
  norm_num

lemma rnd1_mono {x y : ℚ} (h : x ≤ y) : rnd1 x ≤ rnd1 y := by
  unfold rnd1
  have h10 : pyRound (10 * x) ≤ pyRound (10 * y) := pyRound_mono (by linarith)
  have : (pyRound (10 * x) : ℚ) ≤ (pyRound (10 * y) : ℚ) := by exact_mod_cast h10
  linarith

lemma rnd1_intMul (n : ℤ) : rnd1 ((n : ℚ) * 10) = (n : ℚ) * 10 := by
  unfold rnd1
  have : (10 : ℚ) * ((n : ℚ) * 10) = ((100 * n : ℤ) : ℚ) := by push_cast; ring
  rw [this, pyRound_intCast]
  push_cast; ring

lemma rnd1_hundred : rnd1 100 = 100 := by
  have := rnd1_intMul 10
  norm_num at this
  exact this

lemma rnd1_neg_hundred : rnd1 (-100) = -100 := by
  have := rnd1_intMul (-10)
  norm_num at this
  exact this

lemma rnd1_zero : rnd1 0 = 0 := by
  have := rnd1_intMul 0
  norm_num at this
  exact this

lemma rnd1_mem_Icc {x : ℚ} (h0 : -100 ≤ x) (h1 : x ≤ 100) :
    -100 ≤ rnd1 x ∧ rnd1 x ≤ 100 := by
  constructor
  · calc (-100 : ℚ) = rnd1 (-100) := rnd1_neg_hundred.symm
      _ ≤ rnd1 x := rnd1_mono h0
  · calc rnd1 x ≤ rnd1 100 := rnd1_mono h1
      _ = 100 := rnd1_hundred

lemma rnd1_mem_Icc_nonneg {x : ℚ} (h0 : 0 ≤ x) (h1 : x ≤ 100) :
    0 ≤ rnd1 x ∧ rnd1 x ≤ 100 := by
  constructor
  · calc (0 : ℚ) = rnd1 0 := rnd1_zero.symm
      _ ≤ rnd1 x := rnd1_mono h0
  · exact (rnd1_mem_Icc (by linarith) h1).2

/-! ### Properties of `pyMax` -/

lemma init_le_foldl_max (x : ℕ) (xs : List ℕ) : x ≤ xs.foldl max x := by
  induction xs generalizing x with
  | nil => simp
  | cons y ys ih => exact le_trans (le_max_left x y) (ih (max x y))

lemma le_foldl_max (a x : ℕ) (xs : List ℕ) (h : a ∈ x :: xs) :
    a ≤ xs.foldl max x := by
  induction xs generalizing x with
  | nil => simp at h; simp [h]
  | cons y ys ih =>
    rw [List.foldl_cons]
    rcases List.mem_cons.mp h with rfl | h'
    · exact le_trans (le_max_left a y) (init_le_foldl_max _ _)
    · rcases List.mem_cons.mp h' with rfl | h2
      · exact le_trans (le_max_right x a) (init_le_foldl_max _ _)
      · exact ih (max x y) (List.mem_cons_of_mem _ h2)

lemma le_pyMax_of_mem {l : List ℕ} {a m : ℕ} (ha : a ∈ l)
    (hm : pyMax l = some m) : a ≤ m := by
  cases l with
  | nil => cases ha
  | cons x xs =>
    simp only [pyMax, Option.some.injEq] at hm
    exact hm ▸ le_foldl_max a x xs ha

lemma pyMax_eq_none_iff {l : List ℕ} : pyMax l = none ↔ l = [] := by
  cases l <;> simp [pyMax]

lemma pyMax_isSome_of_ne_nil {l : List ℕ} (h : l ≠ []) :
    ∃ m, pyMax l = some m := by
  cases l with
  | nil => exact absurd rfl h
  | cons x xs => exact ⟨_, rfl⟩

/-! ### Indexing helpers -/

lemma getD_map_of_lt {β : Type} (f : Record → β) (dβ : β) {l : List Record}
    {i : ℕ} (h : i < l.length) :
    (l.map f).getD i dβ = f (l.getD i default) := by
  rw [List.getD_eq_getElem?_getD, List.getElem?_map, List.getD_eq_getElem?_getD,
    List.getElem?_eq_getElem h]
  simp

lemma getD_mem_of_lt {α : Type} {l : List α} {i : ℕ} (d : α)
    (h : i < l.length) : l.getD i d ∈ l := by
  rw [List.getD_eq_getElem?_getD, List.getElem?_eq_getElem h]
  exact List.getElem_mem _

/-! ### Shape of the `_keyword_search` result -/

lemma keyword_search_ok_iff {catalog : List Record} {q : String} {k : ℕ}
    {l : List (Record × ℚ)} :
    keyword_search catalog q k = .ok l ↔
      ∃ m, pyMax (kwScores catalog q) = some m ∧
        l = ((argsortDesc 0 (kwScores catalog q)).take k).map (fun i =>
          (catalog.getD i default,
            rnd1 (((kwScores catalog q).getD i 0 : ℚ) /
              ((if 0 < m then m else 1 : ℕ) : ℚ) * 100))) := by
  show (match pyMax (kwScores catalog q) with
    | none => Except.error kwEmptyErr
    | some m => Except.ok (((argsortDesc 0 (kwScores catalog q)).take k).map
        fun i => (catalog.getD i default,
          rnd1 (((kwScores catalog q).getD i 0 : ℚ) /
            ((if 0 < m then m else 1 : ℕ) : ℚ) * 100)))) = .ok l ↔ _
  cases hpm : pyMax (kwScores catalog q) with
  | none => simp [hpm]
  | some m => simp [hpm, eq_comm]

/-! ### Monotone score maps over the argsort order -/

lemma pairwise_map_argsort {α β : Type} [LinearOrder α] [Preorder β]
    (d : α) (xs : List α) (k : ℕ) (f : α → β) (hf : Monotone f) :
    ((((argsortDesc d xs).take k).map fun i => f (xs.getD i d)).Pairwise
      fun a b => b ≤ a) := by
  have h1 : (((argsortDesc d xs).take k).Pairwise
      fun i j => xs.getD j d ≤ xs.getD i d) :=
    List.Pairwise.sublist (List.take_sublist k _) (pairwise_argsortDesc_ge d xs)
  exact List.Pairwise.map _ (fun i j hij => hf hij) h1

/-- C1 (confirmed).  Within one response, relevance scores are
non-increasing across result order: for the vector-similarity strategy on
any similarity vector, and for the fallback `_keyword_search` whenever it
returns a result list. -/
theorem scores_nonincreasing :
    (∀ (catalog : List Record) (sims : List ℚ) (k : ℕ),
      ((semanticSearchSims catalog sims k).map Prod.snd).Pairwise (· ≥ ·)) ∧
    (∀ (catalog : List Record) (q : String) (k : ℕ) (l : List (Record × ℚ)),
      keyword_search catalog q k = .ok l →
      (l.map Prod.snd).Pairwise (· ≥ ·)) := by
  constructor
  · intro catalog sims k
    unfold semanticSearchSims
    rw [List.map_map]
    exact pairwise_map_argsort 0 sims k (fun s => rnd1 (s * 100))
      fun a b hab => rnd1_mono (by linarith)
  · intro catalog q k l h
    obtain ⟨m, _, rfl⟩ := keyword_search_ok_iff.mp h
    rw [List.map_map]
    have hms : (0 : ℚ) < ((if 0 < m then m else 1 : ℕ) : ℚ) := by
      split_ifs with h0
      · exact_mod_cast h0
      · norm_num
    exact pairwise_map_argsort 0 (kwScores catalog q) k
      (fun c => rnd1 ((c : ℚ) / ((if 0 < m then m else 1 : ℕ) : ℚ) * 100))
      fun a b hab => rnd1_mono (by
        have hc : (a : ℚ) ≤ (b : ℚ) := by exact_mod_cast hab
        have hd : (a : ℚ) / ((if 0 < m then m else 1 : ℕ) : ℚ) ≤
            (b : ℚ) / ((if 0 < m then m else 1 : ℕ) : ℚ) := by gcongr
        linarith)

lemma keyword_search_recA_java :
    keyword_search [recA] "java" 1 = .ok [(recA, 100)] := by
  rw [keyword_search_ok_iff]
  refine ⟨1, by decide, ?_⟩
  have h1 : kwScores [recA] "java" = [1] := by decide
  rw [h1]
  norm_num [argsortDesc, argsortAsc, idxLe, List.insertionSort,
    List.orderedInsert, List.range_succ, List.getD, rnd1_hundred]

/-- C1 witness: the keyword branch applied to a concrete one-row catalog. -/
theorem scores_nonincreasing_witness :
    (([((recA : Record), (100 : ℚ))].map Prod.snd).Pairwise (· ≥ ·)) :=
  scores_nonincreasing.2 [recA] "java" 1 [(recA, 100)] keyword_search_recA_java

/-- C3 counterexample: on an empty catalog the fallback ranking raises the
`ValueError` from `max(scores)` instead of returning the `min(3, 0) = 0`
results the claim promises. -/
theorem result_count_counterexample :
    keyword_search [] "a" 3 = .error kwEmptyErr ∧
    ∀ l, keyword_search [] "a" 3 ≠ .ok l := by
  refine ⟨rfl, fun l h => ?_⟩
  rw [show keyword_search [] "a" 3 = .error kwEmptyErr from rfl] at h
  exact Except.noConfusion h

/-- C3 (corrected).  The vector-similarity strategy returns exactly
`min(top_k, N)` results for every catalog; the fallback `_keyword_search`
does so for every non-empty catalog, while on an empty catalog it raises
(see `result_count_counterexample`). -/
theorem result_count_amended :
    (∀ (catalog : List Record) (sims : List ℚ) (k : ℕ),
      sims.length = catalog.length →
      (semanticSearchSims catalog sims k).length = min k catalog.length) ∧
    (∀ (catalog : List Record) (q : String) (k : ℕ), catalog ≠ [] →
      ∃ l, keyword_search catalog q k = .ok l ∧
        l.length = min k catalog.length) := by
  constructor
  · intro catalog sims k hlen
    unfold semanticSearchSims
    rw [List.length_map, List.length_take, length_argsortDesc, hlen]
  · intro catalog q k hne
    have hscores : kwScores catalog q ≠ [] := by
      simp [kwScores, hne]
    obtain ⟨m, hm⟩ := pyMax_isSome_of_ne_nil hscores
    refine ⟨_, keyword_search_ok_iff.mpr ⟨m, hm, rfl⟩, ?_⟩
    rw [List.length_map, List.length_take, length_argsortDesc]
    simp [kwScores]

/-- C3 witness: both branches at concrete inputs. -/
theorem result_count_witness :
    (semanticSearchSims [recA] [1] 5).length = min 5 1 ∧
    ∃ l, keyword_search [recA] "x" 2 = .ok l ∧ l.length = min 2 1 :=
  ⟨result_count_amended.1 [recA] [1] 5 rfl,
   result_count_amended.2 [recA] "x" 2 (by simp)⟩

/-- C4 counterexample: two records with equal similarity come back with the
later catalog row first, refuting "ties broken by original catalog order". -/
theorem tie_order_counterexample :
    semanticSearchSims [recA, recB] [1, 1] 2 = [(recB, 100), (recA, 100)] ∧
    recA ≠ recB := by
  constructor
  · norm_num [semanticSearchSims, argsortDesc, argsortAsc, idxLe,
      List.insertionSort, List.orderedInsert, List.range_succ, List.getD,
      rnd1_hundred]
  · decide

/-- C4 (corrected).  Under the stable-argsort model of `np.argsort`, the
ranking order `np.argsort(scores)[::-1]` used by both strategies is
descending in score, but records with equal scores appear in reversed
catalog order (the later index first), because the reversal also reverses
the stable tie order. -/
theorem tie_order_amended :
    ∀ (sims : List ℚ),
      (argsortDesc 0 sims).Pairwise fun i j =>
        sims.getD j 0 < sims.getD i 0 ∨
          (sims.getD i 0 = sims.getD j 0 ∧ j < i) :=
  fun sims => pairwise_argsortDesc_strict 0 sims

/-- C2 counterexample: the cosine similarity of the one-dimensional
embeddings `[1]` and `[-1]` is `-1` (exactly as lines 137-139 compute it),
and the ranking then reports a relevance score of `-100`, outside `[0,
100]` — the code never clamps. -/
theorem score_range_counterexample :
    cosineSim [1] [-1] = -1 ∧
    semanticSearchSims [recA] [-1] 10 = [(recA, -100)] ∧
    ¬ (0 ≤ (-100 : ℚ)) := by
  refine ⟨?_, ?_, by norm_num⟩
  · norm_num [cosineSim, dotp, norm2, Real.sqrt_one]
  · norm_num [semanticSearchSims, argsortDesc, argsortAsc, idxLe,
      List.insertionSort, List.orderedInsert, List.range_succ, List.getD,
      rnd1_neg_hundred]

/-- C2 (corrected).  Relevance scores are not clamped: the
vector-similarity strategy multiplies the similarity by 100 and rounds, so
its scores lie in `[-100, 100]` whenever every similarity lies in the
cosine range `[-1, 1]` (and a negative similarity really yields a negative
score, see `score_range_counterexample`); the fallback strategy's scores
do lie in `[0, 100]`. -/
theorem score_range_amended :
    (∀ (catalog : List Record) (sims : List ℚ) (k : ℕ),
      (∀ s ∈ sims, -1 ≤ s ∧ s ≤ 1) →
      ∀ p ∈ semanticSearchSims catalog sims k, -100 ≤ p.2 ∧ p.2 ≤ 100) ∧
    (∀ (catalog : List Record) (q : String) (k : ℕ) (l : List (Record × ℚ)),
      keyword_search catalog q k = .ok l →
      ∀ p ∈ l, 0 ≤ p.2 ∧ p.2 ≤ 100) := by
  constructor
  · intro catalog sims k hb p hp
    unfold semanticSearchSims at hp
    obtain ⟨i, hi, rfl⟩ := List.mem_map.mp hp
    have hlen : i < sims.length :=
      lt_of_mem_argsortDesc (List.mem_of_mem_take hi)
    have hs := hb _ (getD_mem_of_lt 0 hlen)
    exact rnd1_mem_Icc (by linarith [hs.1]) (by linarith [hs.2])
  · intro catalog q k l h p hp
    obtain ⟨m, hm, rfl⟩ := keyword_search_ok_iff.mp h
    obtain ⟨i, hi, rfl⟩ := List.mem_map.mp hp
    have hlen : i < (kwScores catalog q).length :=
      lt_of_mem_argsortDesc (List.mem_of_mem_take hi)
    have hcm : (kwScores catalog q).getD i 0 ≤ m :=
      le_pyMax_of_mem (getD_mem_of_lt 0 hlen) hm
    have hms1 : 1 ≤ (if 0 < m then m else 1) := by split_ifs <;> omega
    have hcms : (kwScores catalog q).getD i 0 ≤ (if 0 < m then m else 1) := by
      split_ifs with h0
      · exact hcm
      · omega
    have hmsq : (0 : ℚ) < ((if 0 < m then m else 1 : ℕ) : ℚ) := by
      exact_mod_cast Nat.lt_of_lt_of_le Nat.zero_lt_one hms1
    have h1 : ((kwScores catalog q).getD i 0 : ℚ) /
        ((if 0 < m then m else 1 : ℕ) : ℚ) * 100 ≤ 100 := by
      have hd : ((kwScores catalog q).getD i 0 : ℚ) /
          ((if 0 < m then m else 1 : ℕ) : ℚ) ≤ 1 := by
        rw [div_le_one hmsq]
        exact_mod_cast hcms
      linarith
    have h0 : (0 : ℚ) ≤ ((kwScores catalog q).getD i 0 : ℚ) /
        ((if 0 < m then m else 1 : ℕ) : ℚ) * 100 := by positivity
    exact rnd1_mem_Icc_nonneg h0 h1

/-- C2 witness: both amended branches at concrete inputs. -/
theorem score_range_amended_witness :
    (∀ p ∈ semanticSearchSims [recA] [1] 3, -100 ≤ p.2 ∧ p.2 ≤ 100) ∧
    (∀ p ∈ [((recA : Record), (100 : ℚ))], 0 ≤ p.2 ∧ p.2 ≤ 100) :=
  ⟨score_range_amended.1 [recA] [1] 3 (by norm_num),
   score_range_amended.2 [recA] "java" 1 _ keyword_search_recA_java⟩

/-! ### Membership through the filter stage -/

lemma mem_of_mem_filter_by_test_type {df : List (Record × ℚ)}
    {tt : List String} {x : Record × ℚ} (h : x ∈ filter_by_test_type df tt) :
    x ∈ df := by
  unfold filter_by_test_type at h
  split_ifs at h
  · exact h
  · exact (List.mem_filter.mp h).1

lemma mem_of_mem_filter_by_remote {df : List (Record × ℚ)} {ro : Bool}
    {x : Record × ℚ} (h : x ∈ filter_by_remote df ro) : x ∈ df := by
  unfold filter_by_remote at h
  split_ifs at h
  · exact (List.mem_filter.mp h).1
  · exact h

lemma duration_le_of_mem_apply_filters {results₀ : List (Record × ℚ)}
    {d : ℤ} {tt : List String} {ro : Bool} {k : ℕ} {x : Record × ℚ}
    (hd : d ≠ 0) (hx : x ∈ apply_filters results₀ (some d) tt ro k) :
    x.1.duration ≤ d := by
  simp only [apply_filters] at hx
  rw [if_pos hd] at hx
  have h3 := List.mem_of_mem_take hx
  have h2 : x ∈ (if tt.isEmpty = true then filter_by_duration results₀ d
      else filter_by_test_type (filter_by_duration results₀ d) tt) := by
    by_cases hro : ro = true
    · rw [if_pos hro] at h3; exact mem_of_mem_filter_by_remote h3
    · rw [if_neg hro] at h3; exact h3
  have h1 : x ∈ filter_by_duration results₀ d := by
    by_cases htt : tt.isEmpty = true
    · rw [if_pos htt] at h2; exact h2
    · rw [if_neg htt] at h2; exact mem_of_mem_filter_by_test_type h2
  have := (List.mem_filter.mp h1).2
  simpa using this

lemma get_recommendations_ok_shape {catalog : List Record} {mode : Mode}
    {gemini : Option (String → Option JobRequirements)}
    {fp : String → Except String String} {q u : Option String}
    {md : Option ℤ} {tt : List String} {ro : Bool} {k : ℕ} {res : RecOutput}
    (h : get_recommendations catalog mode gemini fp q u md tt ro k = .ok res) :
    ∃ results₀, res.recommendations =
      apply_filters results₀ md (resolve_search gemini fp q u tt).2.2 ro k := by
  by_cases hq : pyFalsyStr (resolve_search gemini fp q u tt).1 = true
  · refine ⟨(catalog.take k).map fun r => (r, (100 : ℚ)), ?_⟩
    simp only [get_recommendations] at h
    rw [if_pos hq] at h
    simp only [Except.ok.injEq] at h
    rw [← h]
  · simp only [get_recommendations] at h
    rw [if_neg hq] at h
    revert h
    cases hbase : semantic_search catalog mode
        ((resolve_search gemini fp q u tt).1.getD "") (min (k * 2) 50) with
    | error e => intro h; exact absurd h (by simp)
    | ok results₀ =>
      intro h
      simp only [Except.ok.injEq] at h
      exact ⟨results₀, by rw [← h]⟩

/-- C5 (code bug).  Running the pipeline with a query against an empty
catalog raises the `ValueError` from `max([])` in `_keyword_search` when
the engine is in fallback mode, instead of returning `total_found = 0`;
the vector-similarity mode does return the promised empty result. -/
theorem empty_catalog_crash :
    get_recommendations [] .fallback none (fun _ => .error "no network")
      (some "java developer") none none [] false 10 = .error kwEmptyErr ∧
    get_recommendations [] (.semantic fun _ => []) none
      (fun _ => .error "no network") (some "java developer") none none []
      false 10 =
      .ok { recommendations := [], job_requirements := none,
            search_query := some "java developer", total_found := 0 } :=
  ⟨rfl, rfl⟩

/-- C7 counterexample: with `max_duration = 0` the pipeline keeps a record
of duration 30 (the Python guard `if max_duration:` treats `0` as absent),
while the claim demands that only records with `duration ≤ 0` survive. -/
theorem duration_zero_counterexample :
    get_recommendations [recD] .fallback none (fun _ => .error "no network")
      (some "pear") none (some 0) [] false 10 =
      .ok { recommendations := [(recD, 0)], job_requirements := none,
            search_query := some "pear", total_found := 1 } ∧
    recD.duration = 30 ∧ ¬ ((30 : ℤ) ≤ 0) := by
  refine ⟨?_, rfl, by norm_num⟩
  have h1 : keyword_search [recD] "pear" 20 = .ok [(recD, 0)] := by
    rw [keyword_search_ok_iff]
    refine ⟨0, by decide, ?_⟩
    have hs : kwScores [recD] "pear" = [0] := by decide
    rw [hs]
    norm_num [argsortDesc, argsortAsc, idxLe, List.insertionSort,
      List.orderedInsert, List.range_succ, List.getD, rnd1_zero]
  have h0 : resolve_search none (fun _ => .error "no network")
      (some "pear") none [] = (some "pear", none, []) := rfl
  have h2 : pyFalsyStr (some "pear") = false := rfl
  simp only [get_recommendations, h0, h2, Bool.false_eq_true, if_false,
    Option.getD_some, semantic_search]
  rw [show min (10 * 2) 50 = 20 from rfl, h1]
  simp only [apply_filters]
  norm_num [filter_by_duration]

/-- C7 (corrected).  `filter_by_duration` keeps exactly the rows with
`duration ≤ max_duration` (inclusive), and whenever a nonzero
`max_duration` is given every recommendation of the pipeline satisfies the
inclusive bound; `max_duration = 0`, however, disables the filter (see
`duration_zero_counterexample`). -/
theorem duration_filter_amended :
    (∀ (df : List (Record × ℚ)) (d : ℤ) (x : Record × ℚ),
      x ∈ filter_by_duration df d ↔ x ∈ df ∧ x.1.duration ≤ d) ∧
    (∀ (catalog : List Record) (mode : Mode)
      (gemini : Option (String → Option JobRequirements))
      (fp : String → Except String String) (q u : Option String) (d : ℤ)
      (tt : List String) (ro : Bool) (k : ℕ) (res : RecOutput), d ≠ 0 →
      get_recommendations catalog mode gemini fp q u (some d) tt ro k =
        .ok res →
      ∀ x ∈ res.recommendations, x.1.duration ≤ d) := by
  constructor
  · intro df d x
    simp [filter_by_duration]
  · intro catalog mode gemini fp q u d tt ro k res hd h x hx
    obtain ⟨results₀, hr⟩ := get_recommendations_ok_shape h
    rw [hr] at hx
    exact duration_le_of_mem_apply_filters hd hx

/-- C7 witness: the boundary case, a record whose duration equals the
nonzero `max_duration` is kept, and the theorem bounds its duration. -/
theorem duration_filter_witness :
    ((recD, (100 : ℚ)) ∈ filter_by_duration [(recD, 100)] 30 ↔
      (recD, (100 : ℚ)) ∈ [(recD, (100 : ℚ))] ∧ recD.duration ≤ 30) ∧
    ∀ x ∈ [((recD : Record), (0 : ℚ))], x.1.duration ≤ 30 := by
  constructor
  · exact duration_filter_amended.1 [(recD, 100)] 30 (recD, 100)
  · refine duration_filter_amended.2 [recD] .fallback none
      (fun _ => .error "no network") (some "pear") none 30 [] false 10
      ⟨[(recD, 0)], none, some "pear", 1⟩ (by norm_num) ?_
    have h1 : keyword_search [recD] "pear" 20 = .ok [(recD, 0)] := by
      rw [keyword_search_ok_iff]
      refine ⟨0, by decide, ?_⟩
      have hs : kwScores [recD] "pear" = [0] := by decide
      rw [hs]
      norm_num [argsortDesc, argsortAsc, idxLe, List.insertionSort,
        List.orderedInsert, List.range_succ, List.getD, rnd1_zero]
    have h0 : resolve_search none (fun _ => .error "no network")
        (some "pear") none [] = (some "pear", none, []) := rfl
    have h2 : pyFalsyStr (some "pear") = false := rfl
    simp only [get_recommendations, h0, h2, Bool.false_eq_true, if_false,
      Option.getD_some, semantic_search]
    rw [show min (10 * 2) 50 = 20 from rfl, h1]
    simp only [apply_filters]
    norm_num [filter_by_duration, recD]

/-- C9 (confirmed).  When the resolved search query is falsy (no query
string and no skills from the URL path) and no filters are given, the
pipeline returns the first `min(top_k, N)` catalog records in catalog
order, each with relevance score exactly 100.0, and never an error. -/
theorem no_query_head_path :
    ∀ (catalog : List Record) (mode : Mode)
      (gemini : Option (String → Option JobRequirements))
      (fp : String → Except String String) (q u : Option String) (k : ℕ),
      pyFalsyStr (resolve_search gemini fp q u []).1 = true →
      (resolve_search gemini fp q u []).2.2 = [] →
      catalog ≠ [] →
      get_recommendations catalog mode gemini fp q u none [] false k =
        .ok { recommendations := (catalog.take k).map fun r => (r, (100 : ℚ)),
              job_requirements := (resolve_search gemini fp q u []).2.1,
              search_query := (resolve_search gemini fp q u []).1,
              total_found := min k catalog.length } := by
  intro catalog mode gemini fp q u k hq htt hne
  simp only [get_recommendations, hq, if_true, htt, apply_filters,
    List.isEmpty_nil, Bool.false_eq_true, if_false]
  rw [← List.map_take, List.take_take, min_self]
  simp [List.length_take]

/-- C9 witness: a one-record catalog with neither query nor url. -/
theorem no_query_head_path_witness :
    get_recommendations [recA] .fallback none (fun _ => .error "e") none none
      none [] false 3 =
      .ok { recommendations := ([recA].take 3).map fun r => (r, (100 : ℚ)),
            job_requirements :=
              (resolve_search none (fun _ => .error "e") none none []).2.1,
            search_query :=
              (resolve_search none (fun _ => .error "e") none none []).1,
            total_found := min 3 1 } :=
  no_query_head_path [recA] .fallback none (fun _ => .error "e") none none 3
    rfl rfl (by simp)

/-- C6 counterexample: a whitespace-only query against an empty catalog
raises the `ValueError` from `max([])` instead of producing the all-zero
scores the claim promises for every catalog. -/
theorem fallback_empty_catalog_counterexample :
    keyword_search [] "   " 5 = .error kwEmptyErr ∧
    ∀ l, keyword_search [] "   " 5 ≠ .ok l := by
  refine ⟨rfl, fun l h => ?_⟩
  rw [show keyword_search [] "   " 5 = .error kwEmptyErr from rfl] at h
  exact Except.noConfusion h

/-- C6 (corrected).  For every non-empty catalog the fallback strategy
scores exactly as the spec describes: case-insensitive whitespace
tokenisation, substring counts against the combined text, normalisation by
the maximum raw count (or 1 when that maximum is 0), scaling to `[0,
100]` (with the code's rounding to one decimal); a query with no tokens
yields all-zero scores.  On an empty catalog the code raises instead (see
`fallback_empty_catalog_counterexample`). -/
theorem fallback_scoring_amended :
    ∀ (catalog : List Record) (q : String) (k : ℕ), catalog ≠ [] →
      ∃ l, keyword_search catalog q k = .ok l ∧
        (∀ p ∈ l, ∃ i, i < catalog.length ∧
          p.1 = catalog.getD i default ∧
          p.2 = rnd1 (specFallbackScore q catalog (catalog.getD i default))) ∧
        (specTokenize q = [] → ∀ p ∈ l, p.2 = 0) := by
  intro catalog q k hne
  have hkw : kwScores catalog q = catalog.map (specRawScore q) := rfl
  obtain ⟨m, hm⟩ := pyMax_isSome_of_ne_nil
    (show kwScores catalog q ≠ [] by simp [kwScores, hne])
  refine ⟨_, keyword_search_ok_iff.mpr ⟨m, hm, rfl⟩, ?_, ?_⟩
  · intro p hp
    obtain ⟨i, hi, rfl⟩ := List.mem_map.mp hp
    have hlen : i < (kwScores catalog q).length :=
      lt_of_mem_argsortDesc (List.mem_of_mem_take hi)
    have hlen' : i < catalog.length := by
      simpa [kwScores] using hlen
    refine ⟨i, hlen', rfl, ?_⟩
    show rnd1 _ = rnd1 _
    congr 1
    have h1 : (kwScores catalog q).getD i 0 =
        specRawScore q (catalog.getD i default) := by
      rw [hkw]; exact getD_map_of_lt _ 0 hlen'
    have h2 : specDenom q catalog = if 0 < m then m else 1 := by
      unfold specDenom
      rw [← hkw, hm]
      simp only [Option.getD_some]
      rcases Nat.eq_zero_or_pos m with h0 | h0
      · simp [h0]
      · rw [if_neg (by omega), if_pos h0]
    rw [specFallbackScore, h1, h2]
  · intro htok p hp
    obtain ⟨i, hi, rfl⟩ := List.mem_map.mp hp
    have hz : (kwScores catalog q).getD i 0 = 0 := by
      have hall : ∀ r, specRawScore q r = 0 := fun r => by
        unfold specRawScore; rw [htok]; rfl
      rw [hkw]
      rcases lt_or_ge i catalog.length with h | h
      · rw [getD_map_of_lt _ 0 h]; exact hall _
      · rw [List.getD_eq_getElem?_getD, List.getElem?_eq_none (by
          simpa using h)]
        rfl
    show rnd1 _ = 0
    rw [hz]
    norm_num [rnd1_zero]

/-- C6 witness: the amended statement at a concrete one-row catalog. -/
theorem fallback_scoring_witness :
    ∃ l, keyword_search [recA] "java" 2 = .ok l ∧
      (∀ p ∈ l, ∃ i, i < ([recA] : List Record).length ∧
        p.1 = ([recA] : List Record).getD i default ∧
        p.2 = rnd1 (specFallbackScore "java" [recA]
          (([recA] : List Record).getD i default))) ∧
      (specTokenize "java" = [] → ∀ p ∈ l, p.2 = 0) :=
  fallback_scoring_amended [recA] "java" 2 (by simp)

/-- C8 (confirmed).  With the Gemini client disabled, the heuristic path
of `extract_job_requirements` on "I need a Python test" collects
`"python"` into `skills`, and on every input it returns
`experience_level = "mid"`, suggested categories (`test_types`)
`["Coding", "Cognitive"]` and `duration_preference = "medium"`. -/
theorem heuristic_extractor :
    "python" ∈ (extract_job_requirements none "I need a Python test").skills ∧
    ∀ text,
      (extract_job_requirements none text).experience_level = "mid" ∧
      (extract_job_requirements none text).test_types =
        ["Coding", "Cognitive"] ∧
      (extract_job_requirements none text).duration_preference = "medium" := by
  refine ⟨by decide, fun text => ⟨rfl, rfl, rfl⟩⟩

/-- C10 (confirmed).  `extract_text_from_url` is total: every exception
inside the fetch/parse is caught and reported as a string starting with
"Error extracting text:", and on success the result is the
whitespace-collapsed page text truncated to at most 5000 characters. -/
theorem extract_text_total :
    ∀ (fp : String → Except String String) (url : String),
      (∃ e, fp url = .error e ∧
        extract_text_from_url fp url = "Error extracting text: " ++ e ∧
        "Error extracting text: ".data <+:
          (extract_text_from_url fp url).data) ∨
      (∃ t, fp url = .ok t ∧
        extract_text_from_url fp url = ⟨(collapseWsChars t.data).take 5000⟩ ∧
        (extract_text_from_url fp url).length ≤ 5000) := by
  intro fp url
  cases hf : fp url with
  | error e =>
    refine Or.inl ⟨e, rfl, ?_, ?_⟩
    · unfold extract_text_from_url; rw [hf]
    · unfold extract_text_from_url
      rw [hf, String.data_append]
      exact List.prefix_append _ _
  | ok t =>
    refine Or.inr ⟨t, rfl, ?_, ?_⟩
    · unfold extract_text_from_url; rw [hf]
    · unfold extract_text_from_url
      rw [hf]
      exact List.length_take_le _ _

end SHL
